import Mathlib

/-!
Verification of the vacon signaling server (`signaling-server.py`).

The server keeps a process-wide dict `sessions` mapping a session id (the
suffix of the request path after `/v1/ooo/`) to a record
`\x7b "peers": [websocket, ...], "started": bool \x7d`.  One asyncio task runs
`handle_websocket` per connection; context switches happen only at `await`
points (`websocket.recv()`, `peer.send(...)`).  We embed the handler as a
small-step relation whose steps are exactly the atomic blocks between awaits,
over a registry modelled as an association list (Python dicts preserve
insertion order and key uniqueness).

Strings of the Python program are modelled as `List Char`; connections as
natural-number identifiers (Python compares websocket objects by identity).
-/

namespace Vacon

abbrev PyStr := List Char
abbrev Conn := Nat

/-- Session record: `\x7b "peers": [...], "started": b \x7d` from line 36 of
`signaling-server.py`.  `peers` is in join (append) order. -/
structure Session where
  peers : List Conn
  started : Bool
deriving DecidableEq

/-- The global `sessions` dict, as an insertion-ordered association list with
unique keys. -/
abbrev Registry := List (PyStr × Session)

/-- Dict lookup `sessions.get(sid)` / `sid in sessions`. -/
def lookup (reg : Registry) (sid : PyStr) : Option Session :=
  (reg.find? (fun e => decide (e.1 = sid))).map Prod.snd

/-- Dict update `sessions[sid] = s` for a key already present (Python mutates
the stored record in place; for an absent key this is a no-op and we only use
it on present keys). -/
def setKey (reg : Registry) (sid : PyStr) (s : Session) : Registry :=
  reg.map fun e => if e.1 = sid then (e.1, s) else e

/-- Dict deletion `del sessions[sid]`. -/
def eraseKey (reg : Registry) (sid : PyStr) : Registry :=
  reg.filter fun e => decide (e.1 ≠ sid)

/-- Lines 35–38: create the session with a single peer, or append the new
peer to the existing peer list. -/
def join (reg : Registry) (sid : PyStr) (c : Conn) : Registry :=
  match lookup reg sid with
  | none => reg ++ [(sid, ⟨[c], false⟩)]
  | some s => setKey reg sid { s with peers := s.peers ++ [c] }

/-- Lines 63–65: `if websocket in peers: peers.remove(websocket)` —
Python's `list.remove` removes the first occurrence and raises if absent,
hence the membership guard. -/
def removePeer (peers : List Conn) (c : Conn) : List Conn :=
  if c ∈ peers then peers.erase c else peers

/-- Lines 62–69 (inside `if session_id in sessions:`): remove the connection
from the peer list if present, then delete the session if the list became
empty. -/
def leave (reg : Registry) (sid : PyStr) (c : Conn) : Registry :=
  match lookup reg sid with
  | none => reg
  | some s =>
    if removePeer s.peers c = [] then eraseKey reg sid
    else setKey reg sid { s with peers := removePeer s.peers c }

/-- The whole `finally` block, lines 61–69.  `session_id` is `None` before
the path was accepted, hence the `Option`.  Python's `if session_id:` is
false both for `None` and for the empty string. -/
def pyCleanup (reg : Registry) (sidOpt : Option PyStr) (c : Conn) : Registry :=
  match sidOpt with
  | none => reg
  | some sid => if sid = [] then reg else leave reg sid c

/-- The fixed route `'/v1/ooo/'` of line 29. -/
def oooPref : PyStr := "/v1/ooo/".data

/-- Index of the first occurrence of `pat` in `l`, if any — the search
performed by Python's `str.partition`. -/
def findSub (pat : PyStr) : PyStr → Option Nat
  | [] => if pat.isPrefixOf [] then some 0 else none
  | a :: t =>
    if pat.isPrefixOf (a :: t) then some 0
    else (findSub pat t).map (fun n => n + 1)

/-- `path.partition(sep)[-1]` of line 31: the text after the first occurrence
of `sep`, or the empty string when `sep` does not occur. -/
def pyPartitionTail (s sep : PyStr) : PyStr :=
  match findSub sep s with
  | none => []
  | some i => s.drop (i + sep.length)

/-- The exact text `json.dumps(\x7b"type": "start_session"\x7d)` produces
(line 44): the one server-originated control message. -/
def startSessionMsg : PyStr := "\x7b\"type\": \"start_session\"\x7d".data

section AssocLemmas

theorem join_of_none {reg : Registry} {sid : PyStr} (hl : lookup reg sid = none) (c : Conn) :
    join reg sid c = reg ++ [(sid, ⟨[c], false⟩)] := by
  unfold join; rw [hl]

theorem join_of_some {reg : Registry} {sid : PyStr} {s : Session}
    (hl : lookup reg sid = some s) (c : Conn) :
    join reg sid c = setKey reg sid ⟨s.peers ++ [c], s.started⟩ := by
  unfold join; rw [hl]

theorem leave_of_none {reg : Registry} {sid : PyStr} (hl : lookup reg sid = none) (c : Conn) :
    leave reg sid c = reg := by
  unfold leave; rw [hl]

theorem leave_of_some {reg : Registry} {sid : PyStr} {s : Session}
    (hl : lookup reg sid = some s) (c : Conn) :
    leave reg sid c
      = if removePeer s.peers c = [] then eraseKey reg sid
        else setKey reg sid ⟨removePeer s.peers c, s.started⟩ := by
  unfold leave; rw [hl]

theorem pyCleanup_none (reg : Registry) (c : Conn) : pyCleanup reg none c = reg := rfl

theorem pyCleanup_of_empty {sid : PyStr} (hsid : sid = []) (reg : Registry) (c : Conn) :
    pyCleanup reg (some sid) c = reg := by
  show (if sid = [] then reg else leave reg sid c) = reg
  rw [if_pos hsid]

theorem pyCleanup_of_ne {sid : PyStr} (hsid : sid ≠ []) (reg : Registry) (c : Conn) :
    pyCleanup reg (some sid) c = leave reg sid c := by
  show (if sid = [] then reg else leave reg sid c) = leave reg sid c
  rw [if_neg hsid]

theorem lookup_nil (sid : PyStr) : lookup [] sid = none := rfl

theorem lookup_cons (k : PyStr) (s : Session) (reg : Registry) (sid : PyStr) :
    lookup ((k, s) :: reg) sid = if k = sid then some s else lookup reg sid := by
  by_cases h : k = sid
  · simp [lookup, List.find?_cons_of_pos, h]
  · simp [lookup, List.find?_cons_of_neg, h]

theorem lookup_append_left {reg : Registry} {sid : PyStr} {s : Session}
    (h : lookup reg sid = some s) (l : Registry) :
    lookup (reg ++ l) sid = some s := by
  induction reg with
  | nil => simp [lookup_nil] at h
  | cons e t ih =>
    obtain ⟨k, v⟩ := e
    rw [List.cons_append, lookup_cons]
    rw [lookup_cons] at h
    by_cases hk : k = sid
    · simpa [hk] using h
    · simp only [hk, if_false] at h ⊢
      exact ih h

theorem lookup_append_right {reg : Registry} {sid : PyStr}
    (h : lookup reg sid = none) (l : Registry) :
    lookup (reg ++ l) sid = lookup l sid := by
  induction reg with
  | nil => simp
  | cons e t ih =>
    obtain ⟨k, v⟩ := e
    rw [List.cons_append, lookup_cons]
    rw [lookup_cons] at h
    by_cases hk : k = sid
    · simp [hk] at h
    · simp only [hk, if_false] at h ⊢
      exact ih h

theorem setKey_cons (k : PyStr) (s₀ : Session) (reg : Registry) (sid : PyStr) (s : Session) :
    setKey ((k, s₀) :: reg) sid s
      = (if k = sid then (k, s) else (k, s₀)) :: setKey reg sid s := by
  by_cases h : k = sid <;> simp [setKey, h]

theorem lookup_setKey_ne {sid' sid : PyStr} (h : sid' ≠ sid)
    (reg : Registry) (s : Session) :
    lookup (setKey reg sid s) sid' = lookup reg sid' := by
  induction reg with
  | nil => rfl
  | cons e t ih =>
    obtain ⟨k, v⟩ := e
    rw [setKey_cons]
    by_cases hk : k = sid
    · subst hk
      rw [if_pos rfl, lookup_cons, lookup_cons]
      have : ¬ k = sid' := fun hh => h (hh ▸ rfl)
      simp only [this, if_false]
      exact ih
    · rw [if_neg hk, lookup_cons, lookup_cons]
      by_cases hk' : k = sid'
      · simp [hk']
      · simp only [hk', if_false]
        exact ih

theorem lookup_setKey_self {reg : Registry} {sid : PyStr} {s₀ : Session}
    (h : lookup reg sid = some s₀) (s : Session) :
    lookup (setKey reg sid s) sid = some s := by
  induction reg with
  | nil => simp [lookup_nil] at h
  | cons e t ih =>
    obtain ⟨k, v⟩ := e
    rw [setKey_cons]
    rw [lookup_cons] at h
    by_cases hk : k = sid
    · simp [hk, lookup_cons]
    · rw [if_neg hk, lookup_cons, if_neg hk]
      simp only [hk, if_false] at h
      exact ih h

theorem lookup_eraseKey_self (reg : Registry) (sid : PyStr) :
    lookup (eraseKey reg sid) sid = none := by
  induction reg with
  | nil => rfl
  | cons e t ih =>
    obtain ⟨k, v⟩ := e
    by_cases hk : k = sid
    · simpa [eraseKey, hk] using ih
    · simpa [eraseKey, hk, lookup_cons] using ih

theorem eraseKey_cons (k : PyStr) (v : Session) (t : Registry) (sid : PyStr) :
    eraseKey ((k, v) :: t) sid
      = if k = sid then eraseKey t sid else (k, v) :: eraseKey t sid := by
  by_cases hk : k = sid <;> simp [eraseKey, hk]

theorem lookup_eraseKey_ne {sid' sid : PyStr} (h : sid' ≠ sid) (reg : Registry) :
    lookup (eraseKey reg sid) sid' = lookup reg sid' := by
  induction reg with
  | nil => rfl
  | cons e t ih =>
    obtain ⟨k, v⟩ := e
    rw [eraseKey_cons, lookup_cons]
    by_cases hk : k = sid
    · have hk' : ¬ k = sid' := fun hh => h (hh ▸ hk)
      rw [if_pos hk, if_neg hk']
      exact ih
    · rw [if_neg hk, lookup_cons]
      by_cases hk' : k = sid'
      · simp [hk']
      · rw [if_neg hk', if_neg hk']
        exact ih

/-- What `join` stores under `sid`. -/
def joined (c : Conn) : Option Session → Session
  | none => ⟨[c], false⟩
  | some s => ⟨s.peers ++ [c], s.started⟩

theorem lookup_join_self (reg : Registry) (sid : PyStr) (c : Conn) :
    lookup (join reg sid c) sid = some (joined c (lookup reg sid)) := by
  unfold join
  cases h : lookup reg sid with
  | none =>
    rw [lookup_append_right h]
    simp [lookup_cons, joined]
  | some s => simpa [joined] using lookup_setKey_self h _

theorem lookup_join_ne {sid' sid : PyStr} (h : sid' ≠ sid)
    (reg : Registry) (c : Conn) :
    lookup (join reg sid c) sid' = lookup reg sid' := by
  unfold join
  cases hl : lookup reg sid with
  | none =>
    cases h2 : lookup reg sid' with
    | none =>
      rw [lookup_append_right h2, lookup_cons, if_neg (fun hh => h hh.symm), lookup_nil]
    | some s => rw [lookup_append_left h2]
  | some s => exact lookup_setKey_ne h _ _

theorem lookup_leave_ne {sid' sid : PyStr} (h : sid' ≠ sid)
    (reg : Registry) (c : Conn) :
    lookup (leave reg sid c) sid' = lookup reg sid' := by
  unfold leave
  cases hl : lookup reg sid with
  | none => rfl
  | some s =>
    by_cases he : removePeer s.peers c = []
    · simp only [he, if_pos rfl]
      exact lookup_eraseKey_ne h reg
    · simp only [he, if_neg, reduceIte]
      exact lookup_setKey_ne h _ _

theorem lookup_pyCleanup_ne {sid' sid : PyStr} (h : sid' ≠ sid)
    (reg : Registry) (c : Conn) :
    lookup (pyCleanup reg (some sid) c) sid' = lookup reg sid' := by
  show lookup (if sid = [] then reg else leave reg sid c) sid' = lookup reg sid'
  by_cases hsid : sid = []
  · rw [if_pos hsid]
  · rw [if_neg hsid]
    exact lookup_leave_ne h reg c

theorem keys_setKey (reg : Registry) (sid : PyStr) (s : Session) :
    (setKey reg sid s).map Prod.fst = reg.map Prod.fst := by
  induction reg with
  | nil => rfl
  | cons e t ih =>
    obtain ⟨k, v⟩ := e
    rw [setKey_cons]
    by_cases hk : k = sid
    · rw [if_pos hk, List.map_cons, List.map_cons, ih]
    · rw [if_neg hk, List.map_cons, List.map_cons, ih]

theorem setKey_setKey (reg : Registry) (sid : PyStr) (v w : Session) :
    setKey (setKey reg sid v) sid w = setKey reg sid w := by
  induction reg with
  | nil => rfl
  | cons e t ih =>
    obtain ⟨k, s₀⟩ := e
    by_cases hk : k = sid
    · simp only [setKey_cons, hk, if_true, reduceIte, ih]
    · simp only [setKey_cons, hk, if_false, reduceIte, ih]

theorem removePeer_of_not_mem {l : List Conn} {c : Conn} (h : c ∉ l) :
    removePeer l c = l := by
  unfold removePeer
  rw [if_neg h]

theorem lookup_none_iff (reg : Registry) (sid : PyStr) :
    lookup reg sid = none ↔ sid ∉ reg.map Prod.fst := by
  induction reg with
  | nil => simp [lookup_nil]
  | cons e t ih =>
    obtain ⟨k, v⟩ := e
    rw [lookup_cons, List.map_cons]
    by_cases hk : k = sid
    · subst hk
      rw [if_pos rfl]
      exact iff_of_false (Option.some_ne_none v)
        (fun hn => hn (List.mem_cons_self _ _))
    · rw [if_neg hk]
      constructor
      · intro hn hmem
        rcases List.mem_cons.mp hmem with hmem | hmem
        · exact hk hmem.symm
        · exact (ih.mp hn) hmem
      · intro hn
        exact ih.mpr (fun hmem => hn (List.mem_cons.mpr (Or.inr hmem)))

theorem mem_setKey {e : PyStr × Session} {reg : Registry} {sid : PyStr} {s : Session}
    (h : e ∈ setKey reg sid s) : e.2 = s ∨ e ∈ reg := by
  unfold setKey at h
  obtain ⟨e₀, he₀, heq⟩ := List.mem_map.mp h
  by_cases h1 : e₀.1 = sid
  · left; rw [← heq]; simp [h1]
  · right; rw [← heq]; simpa [h1] using he₀

theorem mem_eraseKey {e : PyStr × Session} {reg : Registry} {sid : PyStr}
    (h : e ∈ eraseKey reg sid) : e ∈ reg :=
  List.mem_of_mem_filter h

end AssocLemmas

/-! ### The connection handler as a small-step state machine

`handle_websocket` suspends only at `await` points: `first_peer.send(data)`
(line 47), `websocket.recv()` (line 48) and `peer.send(data)` (line 54).
Each `HStep` constructor is one atomic block of the handler between
suspension points.  Exceptions raised at an `await` unwind synchronously
through `except`/`finally` (lines 56–69), so every failing step runs the
`finally` cleanup atomically and ends the handler. -/

/-- Observable transport actions of one step. -/
inductive Event where
  /-- `first_peer.send(data)` on line 47: the server-originated message. -/
  | startSend (target : Conn) (payload : PyStr)
  /-- `peer.send(data)` on line 54: one relayed copy of an inbound message. -/
  | relaySend (sender target : Conn) (payload : PyStr)
  /-- `websocket.recv()` on line 48 returning a message. -/
  | recvMsg (conn : Conn) (payload : PyStr)
deriving DecidableEq

/-- Program counter of one handler between suspension points. -/
inductive Phase where
  /-- Lines 27–31: connected, about to check the path and join. -/
  | start (path : PyStr)
  /-- Blocked in `await first_peer.send(data)` on line 47, after line 43
  already set `started`; `t` is the `session['peers'][0]` captured on
  line 45. -/
  | startSending (sid : PyStr) (t : Conn)
  /-- Blocked in `websocket.recv()` on line 48. -/
  | awaitRecv (sid : PyStr)
  /-- Inside the relay `for` loop of lines 51–54, about to examine the peer
  at position `idx` of the live peer list (Python's list iterator is
  index-based over the mutable list). -/
  | broadcasting (sid : PyStr) (data : PyStr) (idx : Nat)
  /-- Handler returned: `finally` already ran. -/
  | done
deriving DecidableEq

/-- Session id recorded in an in-loop phase. -/
def Phase.sidOf : Phase → Option PyStr
  | .startSending sid _ => some sid
  | .awaitRecv sid => some sid
  | .broadcasting sid _ _ => some sid
  | _ => none

/-- The `while True` loop head, lines 40–47: `sessions.get`, the
start-session check and, when it fires, `session['started'] = True` before
the `await first_peer.send`.  `fire` tells whether the condition of line 42
holds. -/
def startCheckFires (s : Session) : Prop :=
  2 ≤ s.peers.length ∧ s.started = false

instance (s : Session) : Decidable (startCheckFires s) := by
  unfold startCheckFires; infer_instance

/-- One atomic block of `handle_websocket` for the connection `c`:
relates the registry and handler phase before and after, together with the
transport events of the block. -/
inductive HStep (c : Conn) : Registry → Phase → Registry → Phase → List Event → Prop
  /-- Lines 29–30: the path does not start with `/v1/ooo/`; `return` with
  `session_id = None`, so the `finally` block does nothing. -/
  | reject (reg : Registry) (path : PyStr)
      (hp : oooPref.isPrefixOf path = false) :
      HStep c reg (.start path) reg .done []
  /-- Lines 29–48, second peer check not firing: extract the session id,
  join, run the loop head; the condition of line 42 is false, so the
  handler blocks in `recv`. -/
  | joinNoFire (reg : Registry) (path sid : PyStr) (s : Session)
      (hp : oooPref.isPrefixOf path = true)
      (hsid : sid = pyPartitionTail path oooPref)
      (hs : lookup (join reg sid c) sid = some s)
      (hno : ¬ startCheckFires s) :
      HStep c reg (.start path) (join reg sid c) (.awaitRecv sid) []
  /-- Lines 29–47 with line 42 firing: extract the id, join, set
  `started` (line 43), capture `first_peer = session['peers'][0]`
  (line 45) and suspend in `await first_peer.send(data)` (line 47). -/
  | joinFire (reg : Registry) (path sid : PyStr) (s : Session) (t : Conn)
      (hp : oooPref.isPrefixOf path = true)
      (hsid : sid = pyPartitionTail path oooPref)
      (hs : lookup (join reg sid c) sid = some s)
      (hfire : startCheckFires s)
      (ht : s.peers.head? = some t) :
      HStep c reg (.start path)
        (setKey (join reg sid c) sid { s with started := true })
        (.startSending sid t) []
  /-- The `await first_peer.send(data)` of line 47 completing: the
  `start_session` message is delivered and the handler proceeds to
  `websocket.recv()`. -/
  | startSendOk (reg : Registry) (sid : PyStr) (t : Conn) :
      HStep c reg (.startSending sid t) reg (.awaitRecv sid)
        [.startSend t startSessionMsg]
  /-- The `await first_peer.send(data)` of line 47 raising: the exception
  unwinds into `except`/`finally`. -/
  | startSendFail (reg : Registry) (sid : PyStr) (t : Conn) :
      HStep c reg (.startSending sid t) (pyCleanup reg (some sid) c) .done []
  /-- Line 48 returning a message `data` (any text): proceed into the relay
  loop at index 0. -/
  | recvOk (reg : Registry) (sid data : PyStr) :
      HStep c reg (.awaitRecv sid) reg (.broadcasting sid data 0) [.recvMsg c data]
  /-- Line 48 raising (peer closed or any other error): `except` then
  `finally`. -/
  | recvFail (reg : Registry) (sid : PyStr) :
      HStep c reg (.awaitRecv sid) (pyCleanup reg (some sid) c) .done []
  /-- Line 52: the peer at `idx` is the sender itself; skipped without
  sending. -/
  | bcastSelf (reg : Registry) (sid data : PyStr) (idx : Nat) (s : Session)
      (hs : lookup reg sid = some s)
      (hidx : s.peers.get? idx = some c) :
      HStep c reg (.broadcasting sid data idx) reg (.broadcasting sid data (idx + 1)) []
  /-- Line 54 succeeding: one relayed copy to the peer at `idx`. -/
  | bcastSendOk (reg : Registry) (sid data : PyStr) (idx : Nat) (s : Session) (t : Conn)
      (hs : lookup reg sid = some s)
      (hidx : s.peers.get? idx = some t)
      (hne : t ≠ c) :
      HStep c reg (.broadcasting sid data idx) reg
        (.broadcasting sid data (idx + 1)) [.relaySend c t data]
  /-- Line 54 raising: the exception leaves the `for` loop and the `while`
  loop; `except` then `finally`. -/
  | bcastSendFail (reg : Registry) (sid data : PyStr) (idx : Nat) (s : Session) (t : Conn)
      (hs : lookup reg sid = some s)
      (hidx : s.peers.get? idx = some t)
      (hne : t ≠ c) :
      HStep c reg (.broadcasting sid data idx) (pyCleanup reg (some sid) c) .done []
  /-- The `for` loop exhausted the list; back to the loop head of lines
  40–48 with the line 42 condition false. -/
  | loopNoFire (reg : Registry) (sid data : PyStr) (idx : Nat) (s : Session)
      (hs : lookup reg sid = some s)
      (hidx : s.peers.length ≤ idx)
      (hno : ¬ startCheckFires s) :
      HStep c reg (.broadcasting sid data idx) reg (.awaitRecv sid) []
  /-- Loop head after a broadcast with line 42 firing: set `started`,
  capture `peers[0]` and suspend in the send.  (Unreachable in fact — see
  `reachable_inv` — but part of the code.) -/
  | loopFire (reg : Registry) (sid data : PyStr) (idx : Nat) (s : Session) (t : Conn)
      (hs : lookup reg sid = some s)
      (hidx : s.peers.length ≤ idx)
      (hfire : startCheckFires s)
      (ht : s.peers.head? = some t) :
      HStep c reg (.broadcasting sid data idx)
        (setKey reg sid { s with started := true })
        (.startSending sid t) []
  /-- Line 41 `sessions.get` returning `None` while in the loop: the
  unguarded `session['peers']` on line 42 would raise `TypeError`, caught
  by `except Exception`, then `finally`.  (Unreachable in fact — see
  `reachable_inv` — but part of the code.) -/
  | bcastMissing (reg : Registry) (sid data : PyStr) (idx : Nat)
      (hs : lookup reg sid = none) :
      HStep c reg (.broadcasting sid data idx) (pyCleanup reg (some sid) c) .done []

/-- Several consecutive atomic blocks of the same handler, collecting the
events in order. -/
inductive HSteps (c : Conn) : Registry → Phase → Registry → Phase → List Event → Prop
  | refl (reg : Registry) (ph : Phase) : HSteps c reg ph reg ph []
  | head {reg reg₁ reg' : Registry} {ph ph₁ ph' : Phase} {evs₁ evs₂ : List Event}
      (h1 : HStep c reg ph reg₁ ph₁ evs₁)
      (h2 : HSteps c reg₁ ph₁ reg' ph' evs₂) :
      HSteps c reg ph reg' ph' (evs₁ ++ evs₂)

/-- One handler task. -/
structure Handler where
  conn : Conn
  phase : Phase
deriving DecidableEq

/-- Whole-server state: the `sessions` dict, every handler task spawned so
far, and the log of transport events. -/
structure GState where
  reg : Registry
  handlers : List Handler
  log : List Event
deriving DecidableEq

/-- Server transition: either the listener accepts a fresh connection and
spawns a handler for it, or the asyncio scheduler runs one atomic block of
one handler. -/
inductive Step : GState → GState → Prop
  | spawn (σ : GState) (c : Conn) (path : PyStr)
      (hfresh : c ∉ σ.handlers.map Handler.conn) :
      Step σ ⟨σ.reg, σ.handlers ++ [⟨c, .start path⟩], σ.log⟩
  | hstep (σ : GState) (i : Nat) (h : Handler) (reg' : Registry) (ph' : Phase)
      (evs : List Event)
      (hi : σ.handlers.get? i = some h)
      (hs : HStep h.conn σ.reg h.phase reg' ph' evs) :
      Step σ ⟨reg', σ.handlers.set i ⟨h.conn, ph'⟩, σ.log ++ evs⟩

/-- Server start: empty registry, no handlers. -/
def init : GState := ⟨[], [], []⟩

/-- States the server can be in. -/
def Reachable (σ : GState) : Prop := Relation.ReflTransGen Step init σ

/-! ### The server invariant -/

/-- The connection of an in-loop handler is registered in its session. -/
def peersHas (reg : Registry) (sid : PyStr) (c' : Conn) : Prop :=
  ∃ s, lookup reg sid = some s ∧ c' ∈ s.peers

/-- Boolean check that a handler in its relay loop has its session present
and its own connection in the peer list. -/
def handlerLoopSafeB (reg : Registry) (h : Handler) : Bool :=
  match h.phase.sidOf with
  | none => true
  | some sid =>
    match lookup reg sid with
    | none => false
    | some s => decide (h.conn ∈ s.peers)

theorem handlerLoopSafeB_iff (reg : Registry) (h : Handler) :
    handlerLoopSafeB reg h = true
      ↔ ∀ sid, h.phase.sidOf = some sid → peersHas reg sid h.conn := by
  unfold handlerLoopSafeB
  cases hph : h.phase.sidOf with
  | none => simp
  | some sid =>
    cases hl : lookup reg sid with
    | none =>
      simp only [hl]
      constructor
      · intro hfalse; cases hfalse
      · intro hal
        obtain ⟨s, hs, _⟩ := hal sid rfl
        rw [hl] at hs; cases hs
    | some s =>
      simp only [hl, decide_eq_true_eq]
      constructor
      · intro hm sid' hsid'
        cases Option.some.inj hsid'
        exact ⟨s, hl, hm⟩
      · intro hal
        obtain ⟨s', hs', hm⟩ := hal sid rfl
        rw [hl] at hs'; cases hs'
        exact hm

/-- Invariant of every reachable server state: registry keys are unique,
every registered session has at least one peer, every session that ever saw
two peers is started, handler connections are pairwise distinct, and every
handler inside its relay loop is still registered in its session. -/
def InvS (σ : GState) : Prop :=
  (σ.reg.map Prod.fst).Nodup ∧
  (∀ e ∈ σ.reg, e.2.peers ≠ []) ∧
  (∀ e ∈ σ.reg, 2 ≤ e.2.peers.length → e.2.started = true) ∧
  (σ.handlers.map Handler.conn).Nodup ∧
  (∀ h ∈ σ.handlers, handlerLoopSafeB σ.reg h = true)

instance (σ : GState) : Decidable (InvS σ) := by
  unfold InvS
  infer_instance

section InvPreservation

/-- Strengthened membership decomposition for `setKey`. -/
theorem mem_setKey_cases {e : PyStr × Session} {reg : Registry} {sid : PyStr} {s : Session}
    (h : e ∈ setKey reg sid s) : (e.1 = sid ∧ e.2 = s) ∨ (e ∈ reg ∧ e.1 ≠ sid) := by
  unfold setKey at h
  obtain ⟨e₀, he₀, heq⟩ := List.mem_map.mp h
  by_cases h1 : e₀.1 = sid
  · left
    rw [← heq]
    simp [h1]
  · right
    rw [← heq]
    simpa [h1] using And.intro he₀ h1

theorem mem_join_cases {e : PyStr × Session} {reg : Registry} {sid : PyStr} {c : Conn}
    (h : e ∈ join reg sid c) :
    (e.1 = sid ∧ e.2 = joined c (lookup reg sid)) ∨ (e ∈ reg ∧ e.1 ≠ sid) := by
  unfold join at h
  cases hl : lookup reg sid with
  | none =>
    rw [hl] at h
    rcases List.mem_append.mp h with hm | hm
    · by_cases h1 : e.1 = sid
      · -- an entry of `reg` with key `sid` contradicts `lookup = none`
        exfalso
        have : sid ∈ reg.map Prod.fst := List.mem_map.mpr ⟨e, hm, h1⟩
        exact (lookup_none_iff reg sid).mp hl this
      · exact Or.inr ⟨hm, h1⟩
    · rcases List.mem_singleton.mp hm with rfl
      exact Or.inl ⟨rfl, by simp [joined]⟩
  | some s =>
    rw [hl] at h
    rcases mem_setKey_cases h with ⟨h1, h2⟩ | ⟨h1, h2⟩
    · exact Or.inl ⟨h1, by simp [joined, h2]⟩
    · exact Or.inr ⟨h1, h2⟩

theorem mem_leave_cases {e : PyStr × Session} {reg : Registry} {sid : PyStr} {c : Conn}
    (h : e ∈ leave reg sid c) :
    (∃ s₀, lookup reg sid = some s₀ ∧ removePeer s₀.peers c ≠ [] ∧ e.1 = sid
        ∧ e.2 = ⟨removePeer s₀.peers c, s₀.started⟩)
      ∨ (e ∈ reg ∧ (lookup reg sid = none ∨ e.1 ≠ sid)) := by
  cases hl : lookup reg sid with
  | none =>
    rw [leave_of_none hl] at h
    exact Or.inr ⟨h, Or.inl rfl⟩
  | some s =>
    rw [leave_of_some hl] at h
    by_cases he : removePeer s.peers c = []
    · rw [if_pos he] at h
      have hm := mem_eraseKey h
      right
      refine ⟨hm, Or.inr ?_⟩
      intro h1
      -- an entry with key `sid` cannot survive `eraseKey reg sid`
      unfold eraseKey at h
      have := List.of_mem_filter h
      simp [h1] at this
    · rw [if_neg he] at h
      rcases mem_setKey_cases h with ⟨h1, h2⟩ | ⟨h1, h2⟩
      · exact Or.inl ⟨s, rfl, he, h1, by rw [h2]⟩
      · exact Or.inr ⟨h1, Or.inr h2⟩

theorem mem_pyCleanup_cases {e : PyStr × Session} {reg : Registry} {sid : PyStr} {c : Conn}
    (h : e ∈ pyCleanup reg (some sid) c) :
    (∃ s₀, lookup reg sid = some s₀ ∧ removePeer s₀.peers c ≠ [] ∧ e.1 = sid
        ∧ e.2 = ⟨removePeer s₀.peers c, s₀.started⟩)
      ∨ (e ∈ reg ∧ (lookup reg sid = none ∨ e.1 ≠ sid ∨ sid = [])) := by
  by_cases hsid : sid = []
  · rw [pyCleanup_of_empty hsid] at h
    exact Or.inr ⟨h, Or.inr (Or.inr hsid)⟩
  · rw [pyCleanup_of_ne hsid] at h
    rcases mem_leave_cases h with h1 | ⟨h1, h2⟩
    · exact Or.inl h1
    · rcases h2 with h2 | h2
      · exact Or.inr ⟨h1, Or.inl h2⟩
      · exact Or.inr ⟨h1, Or.inr (Or.inl h2)⟩

theorem lookup_mem {reg : Registry} {sid : PyStr} {s : Session}
    (h : lookup reg sid = some s) : (sid, s) ∈ reg := by
  unfold lookup at h
  cases hf : reg.find? (fun e => decide (e.1 = sid)) with
  | none => rw [hf] at h; cases h
  | some e =>
    rw [hf] at h
    have hmem := List.mem_of_find?_eq_some hf
    have hpred := List.find?_some hf
    have h1 : e.1 = sid := of_decide_eq_true hpred
    have h2 : e.2 = s := Option.some.inj h
    have : e = (sid, s) := by
      obtain ⟨a, b⟩ := e
      simp only at h1 h2
      rw [h1, h2]
    rwa [this] at hmem

theorem keysNodup_setKey {reg : Registry} (h : (reg.map Prod.fst).Nodup)
    (sid : PyStr) (s : Session) : ((setKey reg sid s).map Prod.fst).Nodup := by
  rwa [keys_setKey]

theorem keysNodup_join {reg : Registry} (h : (reg.map Prod.fst).Nodup)
    (sid : PyStr) (c : Conn) : ((join reg sid c).map Prod.fst).Nodup := by
  cases hl : lookup reg sid with
  | none =>
    rw [join_of_none hl, List.map_append]
    have hnm := (lookup_none_iff reg sid).mp hl
    simp [List.nodup_append, h, hnm]
  | some s =>
    rw [join_of_some hl]
    exact keysNodup_setKey h _ _

theorem keysNodup_eraseKey {reg : Registry} (h : (reg.map Prod.fst).Nodup)
    (sid : PyStr) : ((eraseKey reg sid).map Prod.fst).Nodup :=
  ((List.filter_sublist reg).map Prod.fst).nodup h

theorem keysNodup_leave {reg : Registry} (h : (reg.map Prod.fst).Nodup)
    (sid : PyStr) (c : Conn) : ((leave reg sid c).map Prod.fst).Nodup := by
  cases hl : lookup reg sid with
  | none => rwa [leave_of_none hl]
  | some s =>
    rw [leave_of_some hl]
    by_cases he : removePeer s.peers c = []
    · rw [if_pos he]; exact keysNodup_eraseKey h sid
    · rw [if_neg he]; exact keysNodup_setKey h _ _

theorem keysNodup_pyCleanup {reg : Registry} (h : (reg.map Prod.fst).Nodup)
    (sid : PyStr) (c : Conn) : ((pyCleanup reg (some sid) c).map Prod.fst).Nodup := by
  by_cases hsid : sid = []
  · rwa [pyCleanup_of_empty hsid]
  · rw [pyCleanup_of_ne hsid]; exact keysNodup_leave h sid c

/-- Shorthand for the peers-never-empty part of the invariant. -/
def PeersNE (reg : Registry) : Prop := ∀ e ∈ reg, e.2.peers ≠ []

/-- Shorthand for the two-peers-means-started part of the invariant. -/
def StartedOK (reg : Registry) : Prop := ∀ e ∈ reg, 2 ≤ e.2.peers.length → e.2.started = true

theorem joined_peers_ne (c : Conn) (o : Option Session) : (joined c o).peers ≠ [] := by
  cases o with
  | none => simp [joined]
  | some s => simp [joined]

theorem peersNE_join {reg : Registry} (h : PeersNE reg) (sid : PyStr) (c : Conn) :
    PeersNE (join reg sid c) := by
  intro e he
  rcases mem_join_cases he with ⟨_, h2⟩ | ⟨h1, _⟩
  · rw [h2]; exact joined_peers_ne c _
  · exact h e h1

theorem peersNE_setKey {reg : Registry} (h : PeersNE reg) (v : Session)
    (hv : v.peers ≠ []) (sid : PyStr) : PeersNE (setKey reg sid v) := by
  intro e he
  rcases mem_setKey_cases he with ⟨_, h2⟩ | ⟨h1, _⟩
  · rw [h2]; exact hv
  · exact h e h1

theorem peersNE_leave {reg : Registry} (h : PeersNE reg) (sid : PyStr) (c : Conn) :
    PeersNE (leave reg sid c) := by
  intro e he
  rcases mem_leave_cases he with ⟨s₀, _, hne, _, h3⟩ | ⟨h1, _⟩
  · rw [h3]; exact hne
  · exact h e h1

theorem peersNE_pyCleanup {reg : Registry} (h : PeersNE reg) (sid : PyStr) (c : Conn) :
    PeersNE (pyCleanup reg (some sid) c) := by
  by_cases hsid : sid = []
  · rwa [pyCleanup_of_empty hsid]
  · rw [pyCleanup_of_ne hsid]; exact peersNE_leave h sid c

theorem startedOK_setKey {reg : Registry} (h : StartedOK reg) (v : Session)
    (hv : 2 ≤ v.peers.length → v.started = true) (sid : PyStr) :
    StartedOK (setKey reg sid v) := by
  intro e he
  rcases mem_setKey_cases he with ⟨_, h2⟩ | ⟨h1, _⟩
  · rw [h2]; exact hv
  · exact h e h1

theorem startedOK_leave {reg : Registry} (h : StartedOK reg) (sid : PyStr) (c : Conn) :
    StartedOK (leave reg sid c) := by
  intro e he
  rcases mem_leave_cases he with ⟨s₀, hs₀, _, _, h3⟩ | ⟨h1, _⟩
  · rw [h3]
    intro hlen
    -- removing a peer cannot raise the count to 2
    have hle : (removePeer s₀.peers c).length ≤ s₀.peers.length := by
      unfold removePeer
      by_cases hc : c ∈ s₀.peers
      · rw [if_pos hc]; exact List.length_erase_le c s₀.peers
      · rw [if_neg hc]
    exact h _ (lookup_mem hs₀) (le_trans hlen hle)
  · exact h e h1

theorem startedOK_pyCleanup {reg : Registry} (h : StartedOK reg) (sid : PyStr) (c : Conn) :
    StartedOK (pyCleanup reg (some sid) c) := by
  by_cases hsid : sid = []
  · rwa [pyCleanup_of_empty hsid]
  · rw [pyCleanup_of_ne hsid]; exact startedOK_leave h sid c

theorem startedOK_join_of_nofire {reg : Registry} (h : StartedOK reg) {sid : PyStr}
    {c : Conn} {s : Session} (hs : lookup (join reg sid c) sid = some s)
    (hno : ¬ startCheckFires s) : StartedOK (join reg sid c) := by
  intro e he
  rcases mem_join_cases he with ⟨_, h2⟩ | ⟨h1, _⟩
  · rw [lookup_join_self] at hs
    cases Option.some.inj hs
    rw [h2]
    intro hlen
    rcases Bool.eq_false_or_eq_true (joined c (lookup reg sid)).started with hf | ht
    · exact hf
    · exact absurd ⟨hlen, ht⟩ hno
  · exact h e h1

/-! Preservation of `peersHas` (handler-in-loop membership) by each
registry operation. -/

theorem peersHas_join {reg : Registry} {sid' : PyStr} {c' : Conn}
    (h : peersHas reg sid' c') (sid : PyStr) (c : Conn) :
    peersHas (join reg sid c) sid' c' := by
  obtain ⟨s, hs, hm⟩ := h
  by_cases hss : sid' = sid
  · subst hss
    refine ⟨joined c (lookup reg sid'), lookup_join_self reg sid' c, ?_⟩
    rw [hs]
    exact List.mem_append_left _ hm
  · exact ⟨s, by rw [lookup_join_ne hss]; exact hs, hm⟩

theorem peersHas_join_self (reg : Registry) (sid : PyStr) (c : Conn) :
    peersHas (join reg sid c) sid c := by
  refine ⟨joined c (lookup reg sid), lookup_join_self reg sid c, ?_⟩
  cases lookup reg sid with
  | none => simp [joined]
  | some s => simp [joined]

theorem peersHas_setKey_samePeers {reg : Registry} {sid : PyStr} {s₀ : Session}
    (hs : lookup reg sid = some s₀) (v : Session) (hv : v.peers = s₀.peers)
    {sid' : PyStr} {c' : Conn} (h : peersHas reg sid' c') :
    peersHas (setKey reg sid v) sid' c' := by
  obtain ⟨s, hl, hm⟩ := h
  by_cases hss : sid' = sid
  · subst hss
    rw [hl] at hs
    cases Option.some.inj hs
    exact ⟨v, lookup_setKey_self hl v, by rw [hv]; exact hm⟩
  · exact ⟨s, by rw [lookup_setKey_ne hss]; exact hl, hm⟩

theorem peersHas_leave {reg : Registry} {sid : PyStr} {c : Conn}
    {sid' : PyStr} {c' : Conn} (hcc : c' ≠ c) (h : peersHas reg sid' c') :
    peersHas (leave reg sid c) sid' c' := by
  obtain ⟨s, hl, hm⟩ := h
  by_cases hss : sid' = sid
  · subst hss
    have hm' : c' ∈ removePeer s.peers c := by
      unfold removePeer
      by_cases hc : c ∈ s.peers
      · rw [if_pos hc]; exact (List.mem_erase_of_ne hcc).mpr hm
      · rw [if_neg hc]; exact hm
    have hne : removePeer s.peers c ≠ [] := List.ne_nil_of_mem hm'
    rw [leave_of_some hl, if_neg hne]
    exact ⟨⟨removePeer s.peers c, s.started⟩, lookup_setKey_self hl _, hm'⟩
  · exact ⟨s, by rw [lookup_leave_ne hss]; exact hl, hm⟩

theorem peersHas_pyCleanup {reg : Registry} {sid : PyStr} {c : Conn}
    {sid' : PyStr} {c' : Conn} (hcc : c' ≠ c) (h : peersHas reg sid' c') :
    peersHas (pyCleanup reg (some sid) c) sid' c' := by
  by_cases hsid : sid = []
  · rwa [pyCleanup_of_empty hsid]
  · rw [pyCleanup_of_ne hsid]; exact peersHas_leave hcc h

theorem set_get_same {α : Type} :
    ∀ (l : List α) (i : Nat) (a : α), l.get? i = some a → l.set i a = l
  | [], _, _, h => by cases h
  | x :: t, 0, a, h => by
    cases h
    rfl
  | x :: t, i + 1, a, h => by
    show x :: t.set i a = x :: t
    rw [set_get_same t i a h]

theorem conns_set_eq {hl : List Handler} {i : Nat} {h : Handler}
    (hi : hl.get? i = some h) (ph' : Phase) :
    (hl.set i ⟨h.conn, ph'⟩).map Handler.conn = hl.map Handler.conn := by
  rw [List.map_set]
  apply set_get_same
  rw [List.get?_map, hi]
  rfl

theorem mem_set_conn_cases :
    ∀ {l : List Handler} {i : Nat} {h v a : Handler},
      (l.map Handler.conn).Nodup → l.get? i = some h → a ∈ l.set i v →
      a = v ∨ (a ∈ l ∧ a.conn ≠ h.conn)
  | [], _, _, _, _, _, hi, _ => by cases hi
  | x :: t, 0, h, v, a, hnd, hi, ha => by
    cases hi
    rcases List.mem_cons.mp ha with rfl | hm
    · exact Or.inl rfl
    · refine Or.inr ⟨List.mem_cons_of_mem _ hm, ?_⟩
      have hx : x.conn ∉ t.map Handler.conn := (List.nodup_cons.mp hnd).1
      intro heq
      exact hx (heq ▸ List.mem_map.mpr ⟨a, hm, rfl⟩)
  | x :: t, i + 1, h, v, a, hnd, hi, ha => by
    have hi' : t.get? i = some h := hi
    rcases List.mem_cons.mp ha with rfl | hm
    · refine Or.inr ⟨List.mem_cons_self _ _, ?_⟩
      have hx : a.conn ∉ t.map Handler.conn := (List.nodup_cons.mp hnd).1
      intro heq
      exact hx (heq ▸ List.mem_map.mpr ⟨h, List.get?_mem hi', rfl⟩)
    · rcases mem_set_conn_cases (List.nodup_cons.mp hnd).2 hi' hm with h1 | ⟨h1, h2⟩
      · exact Or.inl h1
      · exact Or.inr ⟨List.mem_cons_of_mem _ h1, h2⟩

/-- The one intermediate `setKey` shape of the fire-on-join step: base
entries come from `reg`, the overwritten entry is `v`. -/
theorem startedOK_setKey_join {reg : Registry} (h : StartedOK reg) {sid : PyStr}
    {c : Conn} (v : Session) (hv : 2 ≤ v.peers.length → v.started = true) :
    StartedOK (setKey (join reg sid c) sid v) := by
  intro e he
  rcases mem_setKey_cases he with ⟨_, h2⟩ | ⟨h1, hne⟩
  · rw [h2]; exact hv
  · rcases mem_join_cases h1 with ⟨hk, _⟩ | ⟨hm, _⟩
    · exact absurd hk hne
    · exact h e hm

theorem peersNE_setKey_join {reg : Registry} (h : PeersNE reg) {sid : PyStr}
    {c : Conn} (v : Session) (hv : v.peers ≠ []) :
    PeersNE (setKey (join reg sid c) sid v) :=
  peersNE_setKey (peersNE_join h sid c) v hv sid

/-- Common scaffold: the loop-safety part of the invariant survives a
handler step once we know (a) the stepping handler's new phase is safe in
the new registry and (b) every other connection's registered membership is
preserved. -/
theorem hloop_preserved {R : Registry} {HS : List Handler} {i : Nat} {h : Handler}
    {reg' : Registry} {ph' : Phase}
    (hconns : (HS.map Handler.conn).Nodup)
    (hloop : ∀ h'' ∈ HS, handlerLoopSafeB R h'' = true)
    (hi : HS.get? i = some h)
    (hself : ∀ sid, ph'.sidOf = some sid → peersHas reg' sid h.conn)
    (hothers : ∀ sid' c', c' ≠ h.conn → peersHas R sid' c' → peersHas reg' sid' c') :
    ∀ h'' ∈ HS.set i ⟨h.conn, ph'⟩, handlerLoopSafeB reg' h'' = true := by
  intro h'' hm
  rcases mem_set_conn_cases hconns hi hm with rfl | ⟨hm', hne⟩
  · rw [handlerLoopSafeB_iff]
    exact hself
  · rw [handlerLoopSafeB_iff]
    intro sid hsid
    exact hothers sid h''.conn hne
      (((handlerLoopSafeB_iff R h'').mp (hloop h'' hm')) sid hsid)

theorem invS_init : InvS init := by
  refine ⟨List.nodup_nil, ?_, ?_, List.nodup_nil, ?_⟩ <;> intro e he <;> cases he

theorem invS_step {σ σ' : GState} (hinv : InvS σ) (hst : Step σ σ') : InvS σ' := by
  obtain ⟨R, HS, LG⟩ := σ
  obtain ⟨hkeys, hne, h2s, hconns, hloop⟩ := hinv
  cases hst with
  | spawn c path hfresh =>
    refine ⟨hkeys, hne, h2s, ?_, ?_⟩
    · rw [List.map_append]
      simp [List.nodup_append, hconns, hfresh]
    · intro h'' hm
      rcases List.mem_append.mp hm with hm | hm
      · exact hloop h'' hm
      · rcases List.mem_singleton.mp hm with rfl
        rfl
  | hstep i h reg' ph' evs hi hs =>
    obtain ⟨cc, ph⟩ := h
    have hcset : (HS.set i ⟨cc, ph'⟩).map Handler.conn
        = HS.map Handler.conn := conns_set_eq hi ph'
    have hselfloop := ((handlerLoopSafeB_iff R ⟨cc, ph⟩).mp (hloop ⟨cc, ph⟩ (List.get?_mem hi)))
    cases hs with
    | reject path hp =>
      exact ⟨hkeys, hne, h2s, by rwa [hcset],
        hloop_preserved hconns hloop hi (fun sid hsid => by cases hsid)
          (fun _ _ _ hp => hp)⟩
    | joinNoFire path sid s hp hsid hslk hno =>
      refine ⟨keysNodup_join hkeys sid cc, peersNE_join hne sid cc,
        startedOK_join_of_nofire h2s hslk hno, by rwa [hcset], ?_⟩
      apply hloop_preserved hconns hloop hi
      · intro sid' hsid'
        cases Option.some.inj hsid'
        exact peersHas_join_self R _ cc
      · intro sid' c' _ hph
        exact peersHas_join hph sid cc
    | joinFire path sid s t hp hsid hslk hfire ht =>
      have hpne : s.peers ≠ [] := List.ne_nil_of_mem (List.mem_of_mem_head? ht)
      refine ⟨keysNodup_setKey (keysNodup_join hkeys sid cc) _ _,
        peersNE_setKey_join hne ⟨s.peers, true⟩ hpne,
        startedOK_setKey_join h2s ⟨s.peers, true⟩ (fun _ => rfl), by rwa [hcset], ?_⟩
      apply hloop_preserved hconns hloop hi
      · intro sid' hsid'
        cases Option.some.inj hsid'
        exact peersHas_setKey_samePeers hslk ⟨s.peers, true⟩ rfl (peersHas_join_self R _ cc)
      · intro sid' c' _ hph
        exact peersHas_setKey_samePeers hslk ⟨s.peers, true⟩ rfl (peersHas_join hph sid cc)
    | startSendOk sid t =>
      refine ⟨hkeys, hne, h2s, by rwa [hcset], ?_⟩
      apply hloop_preserved hconns hloop hi
      · intro sid' hsid'
        cases Option.some.inj hsid'
        exact hselfloop sid rfl
      · intro _ _ _ hp; exact hp
    | startSendFail sid t =>
      refine ⟨keysNodup_pyCleanup hkeys sid cc, peersNE_pyCleanup hne sid cc,
        startedOK_pyCleanup h2s sid cc, by rwa [hcset], ?_⟩
      apply hloop_preserved hconns hloop hi
      · intro sid' hsid'; cases hsid'
      · intro sid' c' hcc hph; exact peersHas_pyCleanup hcc hph
    | recvOk sid data =>
      refine ⟨hkeys, hne, h2s, by rwa [hcset], ?_⟩
      apply hloop_preserved hconns hloop hi
      · intro sid' hsid'
        cases Option.some.inj hsid'
        exact hselfloop sid rfl
      · intro _ _ _ hp; exact hp
    | recvFail sid =>
      refine ⟨keysNodup_pyCleanup hkeys sid cc, peersNE_pyCleanup hne sid cc,
        startedOK_pyCleanup h2s sid cc, by rwa [hcset], ?_⟩
      apply hloop_preserved hconns hloop hi
      · intro sid' hsid'; cases hsid'
      · intro sid' c' hcc hph; exact peersHas_pyCleanup hcc hph
    | bcastSelf sid data idx s hslk hidx =>
      refine ⟨hkeys, hne, h2s, by rwa [hcset], ?_⟩
      apply hloop_preserved hconns hloop hi
      · intro sid' hsid'
        cases Option.some.inj hsid'
        exact hselfloop sid rfl
      · intro _ _ _ hp; exact hp
    | bcastSendOk sid data idx s t hslk hidx hne' =>
      refine ⟨hkeys, hne, h2s, by rwa [hcset], ?_⟩
      apply hloop_preserved hconns hloop hi
      · intro sid' hsid'
        cases Option.some.inj hsid'
        exact hselfloop sid rfl
      · intro _ _ _ hp; exact hp
    | bcastSendFail sid data idx s t hslk hidx hne' =>
      refine ⟨keysNodup_pyCleanup hkeys sid cc, peersNE_pyCleanup hne sid cc,
        startedOK_pyCleanup h2s sid cc, by rwa [hcset], ?_⟩
      apply hloop_preserved hconns hloop hi
      · intro sid' hsid'; cases hsid'
      · intro sid' c' hcc hph; exact peersHas_pyCleanup hcc hph
    | loopNoFire sid data idx s hslk hidx hno =>
      refine ⟨hkeys, hne, h2s, by rwa [hcset], ?_⟩
      apply hloop_preserved hconns hloop hi
      · intro sid' hsid'
        cases Option.some.inj hsid'
        exact hselfloop sid rfl
      · intro _ _ _ hp; exact hp
    | loopFire sid data idx s t hslk hidx hfire ht =>
      have hpne : s.peers ≠ [] := List.ne_nil_of_mem (List.mem_of_mem_head? ht)
      refine ⟨keysNodup_setKey hkeys _ _, peersNE_setKey hne ⟨s.peers, true⟩ hpne sid,
        startedOK_setKey h2s ⟨s.peers, true⟩ (fun _ => rfl) sid, by rwa [hcset], ?_⟩
      apply hloop_preserved hconns hloop hi
      · intro sid' hsid'
        cases Option.some.inj hsid'
        exact peersHas_setKey_samePeers hslk ⟨s.peers, true⟩ rfl (hselfloop sid rfl)
      · intro sid' c' _ hph
        exact peersHas_setKey_samePeers hslk ⟨s.peers, true⟩ rfl hph
    | bcastMissing sid data idx hslk =>
      refine ⟨keysNodup_pyCleanup hkeys sid cc, peersNE_pyCleanup hne sid cc,
        startedOK_pyCleanup h2s sid cc, by rwa [hcset], ?_⟩
      apply hloop_preserved hconns hloop hi
      · intro sid' hsid'; cases hsid'
      · intro sid' c' hcc hph; exact peersHas_pyCleanup hcc hph

theorem reachable_inv {σ : GState} (h : Reachable σ) : InvS σ := by
  induction h with
  | refl => exact invS_init
  | tail _ hst ih => exact invS_step ih hst

end InvPreservation

section ClaimSupport

/-- A handler in phase `done` has returned; no step of it exists. -/
theorem done_terminal {c : Conn} {reg reg' : Registry} {ph' : Phase} {evs : List Event}
    (h : HStep c reg .done reg' ph' evs) : False := by
  cases h

theorem lookup_leave_cases (reg : Registry) (sid₀ : PyStr) (c : Conn) (sid : PyStr) :
    lookup (leave reg sid₀ c) sid = lookup reg sid ∨
    lookup (leave reg sid₀ c) sid = none ∨
    (∃ s₀, lookup reg sid = some s₀ ∧
      lookup (leave reg sid₀ c) sid = some ⟨removePeer s₀.peers c, s₀.started⟩) := by
  by_cases hss : sid = sid₀
  · subst hss
    cases hl : lookup reg sid with
    | none =>
      refine Or.inl ?_
      rw [leave_of_none hl]
      exact hl
    | some s₀ =>
      rw [leave_of_some hl]
      by_cases he : removePeer s₀.peers c = []
      · rw [if_pos he, lookup_eraseKey_self]
        exact Or.inr (Or.inl rfl)
      · rw [if_neg he]
        exact Or.inr (Or.inr ⟨s₀, rfl, lookup_setKey_self hl _⟩)
  · exact Or.inl (lookup_leave_ne hss reg c)

theorem lookup_pyCleanup_cases (reg : Registry) (sid₀ : PyStr) (c : Conn) (sid : PyStr) :
    lookup (pyCleanup reg (some sid₀) c) sid = lookup reg sid ∨
    lookup (pyCleanup reg (some sid₀) c) sid = none ∨
    (∃ s₀, lookup reg sid = some s₀ ∧
      lookup (pyCleanup reg (some sid₀) c) sid = some ⟨removePeer s₀.peers c, s₀.started⟩) := by
  by_cases hsid : sid₀ = []
  · rw [pyCleanup_of_empty hsid]; exact Or.inl rfl
  · rw [pyCleanup_of_ne hsid]; exact lookup_leave_cases reg sid₀ c sid

/-- How one step may change the `started` flag of the session `sid`:
a freshly created entry is unstarted with one peer; `started` never drops
back to false while the entry persists; and the only false-to-true
transition is the one of a session going from exactly one to exactly two
peers. -/
def StartedEvolution (r r' : Registry) (sid : PyStr) : Prop :=
  (∀ s', lookup r sid = none → lookup r' sid = some s' →
    s'.started = false ∧ s'.peers.length = 1) ∧
  (∀ s s', lookup r sid = some s → lookup r' sid = some s' →
    s.started = true → s'.started = true) ∧
  (∀ s s', lookup r sid = some s → lookup r' sid = some s' →
    s.started = false → s'.started = true →
    s.peers.length = 1 ∧ s'.peers.length = 2)

theorem SE_of_lookup_eq {r r' : Registry} {sid : PyStr}
    (h : lookup r' sid = lookup r sid) : StartedEvolution r r' sid := by
  refine ⟨?_, ?_, ?_⟩
  · intro s' h1 h2
    rw [h, h1] at h2
    cases h2
  · intro s s' h1 h2 ht
    rw [h, h1] at h2
    cases Option.some.inj h2
    exact ht
  · intro s s' h1 h2 hf ht
    rw [h, h1] at h2
    cases Option.some.inj h2
    rw [hf] at ht
    cases ht

theorem SE_cleanup (r : Registry) (sid₀ : PyStr) (c : Conn) (sid : PyStr) :
    StartedEvolution r (pyCleanup r (some sid₀) c) sid := by
  rcases lookup_pyCleanup_cases r sid₀ c sid with heq | hnone | ⟨s₀, hl, hval⟩
  · exact SE_of_lookup_eq heq
  · refine ⟨?_, ?_, ?_⟩
    · intro s' _ h2; rw [hnone] at h2; cases h2
    · intro s s' _ h2; rw [hnone] at h2; cases h2
    · intro s s' _ h2; rw [hnone] at h2; cases h2
  · refine ⟨?_, ?_, ?_⟩
    · intro s' h1 _
      rw [h1] at hl; cases hl
    · intro s s' h1 h2 ht
      rw [hl] at h1
      cases Option.some.inj h1
      rw [hval] at h2
      cases Option.some.inj h2
      exact ht
    · intro s s' h1 h2 hf ht
      rw [hl] at h1
      cases Option.some.inj h1
      rw [hval] at h2
      cases Option.some.inj h2
      rw [hf] at ht
      cases ht

theorem SE_join_nofire {r : Registry} {sid₀ : PyStr} {c : Conn} {s : Session}
    (hs : lookup (join r sid₀ c) sid₀ = some s) (hno : ¬ startCheckFires s)
    (sid : PyStr) : StartedEvolution r (join r sid₀ c) sid := by
  by_cases hss : sid = sid₀
  · subst hss
    rw [lookup_join_self] at hs
    refine ⟨?_, ?_, ?_⟩
    · intro s' h1 h2
      rw [lookup_join_self, h1] at h2
      cases Option.some.inj h2
      exact ⟨rfl, rfl⟩
    · intro s₁ s' h1 h2 ht
      rw [lookup_join_self, h1] at h2
      cases Option.some.inj h2
      simpa [joined] using ht
    · intro s₁ s' h1 h2 hf ht
      rw [lookup_join_self, h1] at h2
      cases Option.some.inj h2
      simp only [joined] at ht
      rw [hf] at ht
      cases ht
  · exact SE_of_lookup_eq (lookup_join_ne hss r c)

theorem SE_joinFire {r : Registry} {sid₀ : PyStr} {c : Conn} {s : Session}
    (hpne : PeersNE r) (h2s : StartedOK r)
    (hs : lookup (join r sid₀ c) sid₀ = some s) (hfire : startCheckFires s)
    (sid : PyStr) :
    StartedEvolution r (setKey (join r sid₀ c) sid₀ ⟨s.peers, true⟩) sid := by
  by_cases hss : sid = sid₀
  · subst hss
    have hval : lookup (setKey (join r sid c) sid ⟨s.peers, true⟩) sid
        = some ⟨s.peers, true⟩ := lookup_setKey_self hs _
    rw [lookup_join_self] at hs
    have hsdef := Option.some.inj hs
    refine ⟨?_, ?_, ?_⟩
    · intro s' h1 h2
      exfalso
      rw [h1] at hsdef
      have hlen : s.peers.length = 1 := by rw [← hsdef]; rfl
      have h21 := hfire.1
      rw [hlen] at h21
      omega
    · intro s₁ s' h1 h2 ht
      rw [hval] at h2
      cases Option.some.inj h2
      rfl
    · intro s₁ s' h1 h2 hf ht
      rw [hval] at h2
      cases Option.some.inj h2
      rw [h1] at hsdef
      have hmem := lookup_mem h1
      have hlow : ¬ 2 ≤ s₁.peers.length := by
        intro hge
        have hstrue := h2s _ hmem hge
        rw [hf] at hstrue
        cases hstrue
      have hpos : 0 < s₁.peers.length := List.length_pos.mpr (hpne _ hmem)
      have hlen1 : s₁.peers.length = 1 := by omega
      constructor
      · exact hlen1
      · show (⟨s.peers, true⟩ : Session).peers.length = 2
        have hsp : s.peers = s₁.peers ++ [c] := by rw [← hsdef]; simp [joined]
        simp only [hsp, List.length_append, hlen1]
        rfl
  · have : lookup (setKey (join r sid₀ c) sid₀ ⟨s.peers, true⟩) sid = lookup r sid := by
      rw [lookup_setKey_ne hss, lookup_join_ne hss]
    exact SE_of_lookup_eq this

/-- The loop-head fire after a broadcast contradicts the invariant:
a session with two or more peers is already started. -/
theorem loopFire_impossible {r : Registry} {sid₀ : PyStr} {s : Session}
    (h2s : StartedOK r) (hs : lookup r sid₀ = some s)
    (hfire : startCheckFires s) : False := by
  have htrue := h2s _ (lookup_mem hs) hfire.1
  rw [hfire.2] at htrue
  cases htrue

/-- Session-id extraction: on a path that starts with the route,
`partition` cuts exactly at the front, leaving the suffix after the
route. -/
theorem pyPartitionTail_of_isPrefixOf {pat path : PyStr}
    (h : pat.isPrefixOf path = true) :
    pyPartitionTail path pat = path.drop pat.length := by
  cases path with
  | nil =>
    unfold pyPartitionTail findSub
    rw [h]
    simp
  | cons a t =>
    unfold pyPartitionTail findSub
    rw [h]
    simp

/-- A complete, uninterrupted run of the relay `for` loop from index `idx`:
the message goes, in order, to exactly the non-self peers of the tail of
the list, and the handler returns to `recv`. -/
theorem bcast_run {c : Conn} {reg : Registry} {sid data : PyStr} {s : Session}
    (hs : lookup reg sid = some s) (hst : s.started = true) :
    ∀ l idx, s.peers.drop idx = l →
    HSteps c reg (.broadcasting sid data idx) reg (.awaitRecv sid)
      ((l.filter (fun t => decide (t ≠ c))).map (fun t => Event.relaySend c t data)) := by
  intro l
  induction l with
  | nil =>
    intro idx hd
    have hlen : s.peers.length ≤ idx := List.drop_eq_nil_iff_le.mp hd
    have hno : ¬ startCheckFires s := by
      intro hfire
      have hf2 := hfire.2
      rw [hst] at hf2
      cases hf2
    have hstep : HStep c reg (.broadcasting sid data idx) reg (.awaitRecv sid) [] :=
      HStep.loopNoFire reg sid data idx s hs hlen hno
    simpa using HSteps.head hstep (HSteps.refl reg (.awaitRecv sid))
  | cons t l' ih =>
    intro idx hd
    have hget : s.peers.get? idx = some t := by
      have hdg := List.get?_drop s.peers idx 0
      rw [hd] at hdg
      simpa using hdg.symm
    have hd' : s.peers.drop (idx + 1) = l' := by
      rw [← List.tail_drop, hd]
      rfl
    by_cases htc : t = c
    · subst htc
      have hstep : HStep t reg (.broadcasting sid data idx) reg
          (.broadcasting sid data (idx + 1)) [] :=
        HStep.bcastSelf reg sid data idx s hs hget
      have hrest := ih (idx + 1) hd'
      simpa using HSteps.head hstep hrest
    · have hstep : HStep c reg (.broadcasting sid data idx) reg
          (.broadcasting sid data (idx + 1)) [Event.relaySend c t data] :=
        HStep.bcastSendOk reg sid data idx s t hs hget htc
      have hrest := ih (idx + 1) hd'
      have := HSteps.head hstep hrest
      simpa [htc] using this

end ClaimSupport

/-! ### A concrete run: two peers joining session `a` -/

section Scenario

def pathA : PyStr := "/v1/ooo/a".data
def sidA : PyStr := "a".data

def gs1 : GState := ⟨[], [⟨0, .start pathA⟩], []⟩
def gs2 : GState := ⟨[(sidA, ⟨[0], false⟩)], [⟨0, .awaitRecv sidA⟩], []⟩
def gs3 : GState := ⟨[(sidA, ⟨[0], false⟩)], [⟨0, .awaitRecv sidA⟩, ⟨1, .start pathA⟩], []⟩
def gs3b : GState :=
  ⟨[(sidA, ⟨[0, 1], true⟩)], [⟨0, .awaitRecv sidA⟩, ⟨1, .startSending sidA 0⟩], []⟩
def gs4 : GState :=
  ⟨[(sidA, ⟨[0, 1], true⟩)], [⟨0, .awaitRecv sidA⟩, ⟨1, .awaitRecv sidA⟩],
    [.startSend 0 startSessionMsg]⟩

theorem step01 : Step init gs1 := Step.spawn init 0 pathA (by decide)

theorem hstepJoin1 : HStep 0 gs1.reg (.start pathA) gs2.reg (.awaitRecv sidA) [] :=
  HStep.joinNoFire gs1.reg pathA sidA ⟨[0], false⟩ (by decide) (by decide) (by decide)
    (by decide)

theorem step12 : Step gs1 gs2 :=
  Step.hstep gs1 0 ⟨0, .start pathA⟩ gs2.reg (.awaitRecv sidA) [] rfl hstepJoin1

theorem step23 : Step gs2 gs3 := Step.spawn gs2 1 pathA (by decide)

theorem hstepJoinFire : HStep 1 gs3.reg (.start pathA) gs3b.reg (.startSending sidA 0) [] :=
  HStep.joinFire gs3.reg pathA sidA ⟨[0, 1], false⟩ 0 (by decide) (by decide) (by decide)
    (by decide) (by decide)

theorem step33b : Step gs3 gs3b :=
  Step.hstep gs3 1 ⟨1, .start pathA⟩ gs3b.reg (.startSending sidA 0) [] rfl hstepJoinFire

theorem hstepStartOk : HStep 1 gs3b.reg (.startSending sidA 0) gs4.reg (.awaitRecv sidA)
    [.startSend 0 startSessionMsg] :=
  HStep.startSendOk gs3b.reg sidA 0

theorem step3b4 : Step gs3b gs4 :=
  Step.hstep gs3b 1 ⟨1, .startSending sidA 0⟩ gs4.reg (.awaitRecv sidA)
    [.startSend 0 startSessionMsg] rfl hstepStartOk

theorem reach2 : Reachable gs2 :=
  Relation.ReflTransGen.tail (Relation.ReflTransGen.tail Relation.ReflTransGen.refl step01)
    step12

theorem reach4 : Reachable gs4 :=
  Relation.ReflTransGen.tail
    (Relation.ReflTransGen.tail (Relation.ReflTransGen.tail reach2 step23) step33b)
    step3b4

end Scenario

/-! ### The zombie run: the empty session id skips cleanup -/

section ZombieScenario

def pathE : PyStr := "/v1/ooo/".data

def gz1 : GState := ⟨[], [⟨0, .start pathE⟩], []⟩
def gz2 : GState := ⟨[([], ⟨[0], false⟩)], [⟨0, .awaitRecv []⟩], []⟩
def gz3 : GState := ⟨[([], ⟨[0], false⟩)], [⟨0, .done⟩], []⟩

theorem stepz01 : Step init gz1 := Step.spawn init 0 pathE (by decide)

theorem hstepzJoin : HStep 0 gz1.reg (.start pathE) gz2.reg (.awaitRecv []) [] :=
  HStep.joinNoFire gz1.reg pathE [] ⟨[0], false⟩ (by decide) (by decide) (by decide)
    (by decide)

theorem stepz12 : Step gz1 gz2 :=
  Step.hstep gz1 0 ⟨0, .start pathE⟩ gz2.reg (.awaitRecv []) [] rfl hstepzJoin

theorem hstepzFail : HStep 0 gz2.reg (.awaitRecv []) gz3.reg .done [] :=
  HStep.recvFail gz2.reg []

theorem stepz23 : Step gz2 gz3 :=
  Step.hstep gz2 0 ⟨0, .awaitRecv []⟩ gz3.reg .done [] rfl hstepzFail

theorem reachz3 : Reachable gz3 :=
  Relation.ReflTransGen.tail
    (Relation.ReflTransGen.tail (Relation.ReflTransGen.tail Relation.ReflTransGen.refl stepz01)
      stepz12)
    stepz23

end ZombieScenario

/-! ### The claims -/

/-- C1: every `start_session` send carries exactly the JSON text
`json.dumps(\x7b"type": "start_session"\x7d)`; it is the single event of its
step, emitted while the handler moves from the suspended send to the
`recv` of line 48 (so the send precedes the handler's next inbound
message); and its target is the `session['peers'][0]` captured when the
second-peer condition of line 42 fired, with `started` set — the session's
first peer, and only that peer. -/
theorem C1_start_session_first_peer :
    (∀ c reg ph reg' ph' evs, HStep c reg ph reg' ph' evs →
      ∀ t p, Event.startSend t p ∈ evs →
        p = startSessionMsg ∧
        ∃ sid, ph = Phase.startSending sid t ∧ ph' = Phase.awaitRecv sid ∧
          evs = [Event.startSend t startSessionMsg]) ∧
    (∀ c reg ph reg' ph' evs sid t, HStep c reg ph reg' ph' evs →
      ph' = Phase.startSending sid t →
      ∃ s, lookup reg' sid = some s ∧ s.peers.head? = some t ∧ s.started = true) := by
  constructor
  · intro c reg ph reg' ph' evs hs t p hmem
    cases hs with
    | reject path hp => cases hmem
    | joinNoFire path sid s hp hsid hslk hno => cases hmem
    | joinFire path sid s t₀ hp hsid hslk hfire ht => cases hmem
    | startSendOk sid t₀ =>
      rcases List.mem_singleton.mp hmem with h
      cases h
      exact ⟨rfl, sid, rfl, rfl, rfl⟩
    | startSendFail sid t₀ => cases hmem
    | recvOk sid data =>
      rcases List.mem_singleton.mp hmem with h
      cases h
    | recvFail sid => cases hmem
    | bcastSelf sid data idx s hslk hidx => cases hmem
    | bcastSendOk sid data idx s t₀ hslk hidx hne =>
      rcases List.mem_singleton.mp hmem with h
      cases h
    | bcastSendFail sid data idx s t₀ hslk hidx hne => cases hmem
    | loopNoFire sid data idx s hslk hidx hno => cases hmem
    | loopFire sid data idx s t₀ hslk hidx hfire ht => cases hmem
    | bcastMissing sid data idx hslk => cases hmem
  · intro c reg ph reg' ph' evs sid t hs hph
    cases hs with
    | reject path hp => cases hph
    | joinNoFire path sid₀ s hp hsid hslk hno => cases hph
    | joinFire path sid₀ s t₀ hp hsid hslk hfire ht =>
      cases hph
      exact ⟨⟨s.peers, true⟩, lookup_setKey_self hslk _, ht, rfl⟩
    | startSendOk sid₀ t₀ => cases hph
    | startSendFail sid₀ t₀ => cases hph
    | recvOk sid₀ data => cases hph
    | recvFail sid₀ => cases hph
    | bcastSelf sid₀ data idx s hslk hidx => cases hph
    | bcastSendOk sid₀ data idx s t₀ hslk hidx hne => cases hph
    | bcastSendFail sid₀ data idx s t₀ hslk hidx hne => cases hph
    | loopNoFire sid₀ data idx s hslk hidx hno => cases hph
    | loopFire sid₀ data idx s t₀ hslk hidx hfire ht =>
      cases hph
      exact ⟨⟨s.peers, true⟩, lookup_setKey_self hslk _, ht, rfl⟩
    | bcastMissing sid₀ data idx hslk => cases hph

/-- C1 witness: in the concrete two-peer run, the fire step leaves the
session registered with `peers[0] = 0` as the captured target and
`started = true`. -/
theorem C1_witness :
    ∃ s, lookup gs3b.reg sidA = some s ∧ s.peers.head? = some 0 ∧ s.started = true :=
  C1_start_session_first_peer.2 1 gs3.reg (.start pathA) gs3b.reg
    (.startSending sidA 0) [] sidA 0 hstepJoinFire rfl

/-- C2: across any server step, for any session id: a freshly created
entry has `started = false` and one peer; `started` never goes back from
true to false while the entry exists; and the only false-to-true
transition is a step taking the session from exactly one to exactly two
peers. -/
theorem C2_started_transitions {σ σ' : GState} (hinv : InvS σ) (hst : Step σ σ')
    (sid : PyStr) : StartedEvolution σ.reg σ'.reg sid := by
  obtain ⟨R, HS, LG⟩ := σ
  obtain ⟨hkeys, hne, h2s, hconns, hloop⟩ := hinv
  cases hst with
  | spawn c path hfresh => exact SE_of_lookup_eq rfl
  | hstep i h reg' ph' evs hi hs =>
    obtain ⟨cc, ph⟩ := h
    cases hs with
    | reject path hp => exact SE_of_lookup_eq rfl
    | joinNoFire path sid₀ s hp hsid hslk hno => exact SE_join_nofire hslk hno sid
    | joinFire path sid₀ s t hp hsid hslk hfire ht =>
      exact SE_joinFire hne h2s hslk hfire sid
    | startSendOk sid₀ t => exact SE_of_lookup_eq rfl
    | startSendFail sid₀ t => exact SE_cleanup R sid₀ cc sid
    | recvOk sid₀ data => exact SE_of_lookup_eq rfl
    | recvFail sid₀ => exact SE_cleanup R sid₀ cc sid
    | bcastSelf sid₀ data idx s hslk hidx => exact SE_of_lookup_eq rfl
    | bcastSendOk sid₀ data idx s t hslk hidx hne' => exact SE_of_lookup_eq rfl
    | bcastSendFail sid₀ data idx s t hslk hidx hne' => exact SE_cleanup R sid₀ cc sid
    | loopNoFire sid₀ data idx s hslk hidx hno => exact SE_of_lookup_eq rfl
    | loopFire sid₀ data idx s t hslk hidx hfire ht =>
      exact (loopFire_impossible h2s hslk hfire).elim
    | bcastMissing sid₀ data idx hslk => exact SE_cleanup R sid₀ cc sid

/-- C2 witness: the join of the second peer in the concrete run flips
`started` while taking the peer count from 1 to 2. -/
theorem C2_witness :
    (Session.mk [0] false).peers.length = 1 ∧ (Session.mk [0, 1] true).peers.length = 2 :=
  (C2_started_transitions (by decide) step33b sidA).2.2 ⟨[0], false⟩ ⟨[0, 1], true⟩
    rfl rfl rfl rfl

/-- C3: every relayed copy of a message goes from the broadcasting handler
to a connection that is, at that moment, in the peer list of the handler's
own session and is not the sender itself (so never outside the session and
never echoed back); the payload is the `data` of the handler's current
loop iteration, which is exactly the message its `recv` returned; and an
uninterrupted run of the `for` loop delivers the message, in list order,
to precisely every other peer of the session. -/
theorem C3_relay_to_others :
    (∀ c reg ph reg' ph' evs snd t p, HStep c reg ph reg' ph' evs →
      Event.relaySend snd t p ∈ evs →
      snd = c ∧ t ≠ c ∧ ∃ sid data idx s, ph = Phase.broadcasting sid data idx ∧
        p = data ∧ lookup reg sid = some s ∧ t ∈ s.peers) ∧
    (∀ c reg ph reg' ph' evs sid data, HStep c reg ph reg' ph' evs →
      ph' = Phase.broadcasting sid data 0 → Event.recvMsg c data ∈ evs) ∧
    (∀ c reg sid data s, lookup reg sid = some s → s.started = true →
      HSteps c reg (Phase.broadcasting sid data 0) reg (Phase.awaitRecv sid)
        ((s.peers.filter (fun t => decide (t ≠ c))).map
          (fun t => Event.relaySend c t data))) := by
  refine ⟨?_, ?_, ?_⟩
  · intro c reg ph reg' ph' evs snd t p hs hmem
    cases hs with
    | reject path hp => cases hmem
    | joinNoFire path sid s hp hsid hslk hno => cases hmem
    | joinFire path sid s t₀ hp hsid hslk hfire ht => cases hmem
    | startSendOk sid t₀ =>
      rcases List.mem_singleton.mp hmem with h
      cases h
    | startSendFail sid t₀ => cases hmem
    | recvOk sid data =>
      rcases List.mem_singleton.mp hmem with h
      cases h
    | recvFail sid => cases hmem
    | bcastSelf sid data idx s hslk hidx => cases hmem
    | bcastSendOk sid data idx s t₀ hslk hidx hne =>
      rcases List.mem_singleton.mp hmem with h
      cases h
      exact ⟨rfl, hne, _, _, _, _, rfl, rfl, hslk, List.get?_mem hidx⟩
    | bcastSendFail sid data idx s t₀ hslk hidx hne => cases hmem
    | loopNoFire sid data idx s hslk hidx hno => cases hmem
    | loopFire sid data idx s t₀ hslk hidx hfire ht => cases hmem
    | bcastMissing sid data idx hslk => cases hmem
  · intro c reg ph reg' ph' evs sid data hs hph
    cases hs with
    | reject path hp => cases hph
    | joinNoFire path sid₀ s hp hsid hslk hno => cases hph
    | joinFire path sid₀ s t₀ hp hsid hslk hfire ht => cases hph
    | startSendOk sid₀ t₀ => cases hph
    | startSendFail sid₀ t₀ => cases hph
    | recvOk sid₀ data₀ =>
      cases hph
      exact List.mem_singleton.mpr rfl
    | recvFail sid₀ => cases hph
    | bcastSelf sid₀ data₀ idx s hslk hidx => cases hph
    | bcastSendOk sid₀ data₀ idx s t₀ hslk hidx hne => cases hph
    | bcastSendFail sid₀ data₀ idx s t₀ hslk hidx hne => cases hph
    | loopNoFire sid₀ data₀ idx s hslk hidx hno => cases hph
    | loopFire sid₀ data₀ idx s t₀ hslk hidx hfire ht => cases hph
    | bcastMissing sid₀ data₀ idx hslk => cases hph
  · intro c reg sid data s hs hst
    exact bcast_run hs hst s.peers 0 (List.drop_zero s.peers)

def msgM : PyStr := "offer-data".data

/-- C3 witness: in the started two-peer session, handler 1 relaying
`"offer-data"` delivers exactly one copy, to peer 0. -/
theorem C3_witness :
    HSteps 1 gs4.reg (Phase.broadcasting sidA msgM 0) gs4.reg (Phase.awaitRecv sidA)
      [Event.relaySend 1 0 msgM] := by
  have h := C3_relay_to_others.2.2 1 gs4.reg sidA msgM ⟨[0, 1], true⟩ rfl rfl
  simpa using h

/-- C4 (code bug): a peer that joined with request path `/v1/ooo/` —
session id the empty string, which the spec declares valid — and whose
connection then fails reaches `done` with the registry untouched: the
`finally` block's `if session_id:` is false for the empty string, so the
dead connection is never removed and the session never deleted, contrary
to the claimed unconditional cleanup.  `gz3` is reachable, its only
handler has returned, and session `""` still lists connection 0. -/
theorem C4_empty_sid_cleanup_skipped :
    Reachable gz3 ∧ gz3.handlers = [⟨0, Phase.done⟩] ∧
    lookup gz3.reg [] = some ⟨[0], false⟩ ∧
    pyCleanup gz3.reg (some []) 0 = gz3.reg :=
  ⟨reachz3, rfl, rfl, rfl⟩

def regX : Registry := [(sidA, ⟨[1, 2, 3], true⟩)]

theorem bcastFail_example :
    HStep 1 regX (Phase.broadcasting sidA msgM 1) [(sidA, ⟨[2, 3], true⟩)] Phase.done [] :=
  HStep.bcastSendFail regX sidA msgM 1 ⟨[1, 2, 3], true⟩ 2 (by decide) (by decide)
    (by decide)

/-- C5 counterexample: handler 1 broadcasting `"offer-data"` in a session
with peers `[1, 2, 3]` hits a send failure at peer 2 (index 1): the very
step ends the handler in the terminal `done` phase with its `finally`
cleanup already applied (the sender removed from the session) and emits no
further send — so peer 3 is not served by this broadcast and the sending
handler is terminated, refuting the claimed isolation of send failures. -/
theorem C5_counterexample :
    HStep 1 regX (Phase.broadcasting sidA msgM 1) [(sidA, ⟨[2, 3], true⟩)] Phase.done []
      ∧ [(sidA, Session.mk [2, 3] true)] = pyCleanup regX (some sidA) 1 :=
  ⟨bcastFail_example, rfl⟩

/-- C5 amended: a send failure during the relay `for` loop propagates out
of the loop: the failing step emits no events (the remaining peers do not
receive the message from this broadcast), runs the handler's `finally`
cleanup, and leaves the handler in the terminal `done` phase, from which
no further step exists. -/
theorem C5_send_failure_aborts_broadcast :
    ∀ c reg sid data idx reg' evs,
      HStep c reg (Phase.broadcasting sid data idx) reg' Phase.done evs →
      reg' = pyCleanup reg (some sid) c ∧ evs = [] ∧
      ∀ reg₂ ph₂ evs₂, ¬ HStep c reg' Phase.done reg₂ ph₂ evs₂ := by
  intro c reg sid data idx reg' evs hs
  cases hs with
  | bcastSendFail sid₀ data₀ idx₀ s t hslk hidx hne =>
    exact ⟨rfl, rfl, fun _ _ _ h => done_terminal h⟩
  | bcastMissing sid₀ data₀ idx₀ hslk =>
    exact ⟨rfl, rfl, fun _ _ _ h => done_terminal h⟩

/-- C5 witness: the amended statement evaluated at the concrete failing
broadcast of `C5_counterexample`. -/
theorem C5_witness :
    [(sidA, Session.mk [2, 3] true)] = pyCleanup regX (some sidA) 1 ∧
    ([] : List Event) = [] :=
  ⟨(C5_send_failure_aborts_broadcast 1 regX sidA msgM 1 _ _ bcastFail_example).1,
    (C5_send_failure_aborts_broadcast 1 regX sidA msgM 1 _ _ bcastFail_example).2.1⟩

/-- C6: in every reachable server state, every registered session has a
non-empty peer list (so a peer count of at least one — never zero, never
negative): no operation leaves a dangling empty session. -/
theorem C6_no_empty_sessions {σ : GState} (h : Reachable σ) :
    ∀ sid s, lookup σ.reg sid = some s → s.peers ≠ [] ∧ 1 ≤ s.peers.length := by
  have hinv := reachable_inv h
  intro sid s hl
  have h1 := hinv.2.1 _ (lookup_mem hl)
  exact ⟨h1, List.length_pos.mpr h1⟩

/-- C6 witness: the session of the concrete two-peer run. -/
theorem C6_witness :
    (Session.mk [0, 1] true).peers ≠ [] ∧ 1 ≤ (Session.mk [0, 1] true).peers.length :=
  C6_no_empty_sessions reach4 sidA ⟨[0, 1], true⟩ rfl

/-- C7: the leave operation of the `finally` block is idempotent — running
it a second time for the same connection and session changes nothing
(given the connection is registered at most once, as in every reachable
state) — and leaving a session id that is not in the registry is a no-op. -/
theorem C7_leave_idempotent (reg : Registry) (sid : PyStr) (c : Conn)
    (hcount : ∀ s, lookup reg sid = some s → s.peers.count c ≤ 1) :
    leave (leave reg sid c) sid c = leave reg sid c ∧
    (lookup reg sid = none → leave reg sid c = reg) := by
  refine ⟨?_, fun hn => leave_of_none hn c⟩
  cases hl : lookup reg sid with
  | none =>
    rw [leave_of_none hl]
    exact leave_of_none hl c
  | some s =>
    rw [leave_of_some hl]
    by_cases he : removePeer s.peers c = []
    · rw [if_pos he]
      exact leave_of_none (lookup_eraseKey_self reg sid) c
    · rw [if_neg he]
      have hl2 : lookup (setKey reg sid ⟨removePeer s.peers c, s.started⟩) sid
          = some ⟨removePeer s.peers c, s.started⟩ := lookup_setKey_self hl _
      rw [leave_of_some hl2]
      have hnotin : c ∉ removePeer s.peers c := by
        unfold removePeer
        by_cases hc : c ∈ s.peers
        · rw [if_pos hc]
          intro hmem
          have hcnt := hcount s hl
          have h1 : 0 < s.peers.count c := List.count_pos_iff_mem.mpr hc
          have hpos : 0 < (s.peers.erase c).count c := List.count_pos_iff_mem.mpr hmem
          have hesc : (s.peers.erase c).count c = s.peers.count c - 1 :=
            List.count_erase_self c s.peers
          omega
        · rw [if_neg hc]
          exact hc
      rw [removePeer_of_not_mem hnotin, if_neg he]
      exact setKey_setKey reg sid _ _

/-- C7 witness: leaving twice from the concrete two-peer session. -/
theorem C7_witness :
    leave (leave [(sidA, Session.mk [0, 1] true)] sidA 0) sidA 0
      = leave [(sidA, Session.mk [0, 1] true)] sidA 0 :=
  (C7_leave_idempotent [(sidA, Session.mk [0, 1] true)] sidA 0 (by decide)).1

/-- C8: a handler whose request path does not start with `/v1/ooo/`
terminates in its very first step with the registry unchanged, no events,
and no further steps — no session is created, no peer list touched, no
message sent. -/
theorem C8_reject_no_state_change :
    ∀ c reg path reg' ph' evs, HStep c reg (Phase.start path) reg' ph' evs →
      oooPref.isPrefixOf path = false →
      reg' = reg ∧ ph' = Phase.done ∧ evs = [] ∧
      ∀ reg₂ ph₂ evs₂, ¬ HStep c reg' ph' reg₂ ph₂ evs₂ := by
  intro c reg path reg' ph' evs hs hbad
  cases hs with
  | reject _ hp => exact ⟨rfl, rfl, rfl, fun _ _ _ h => done_terminal h⟩
  | joinNoFire path₀ sid s hp hsid hslk hno =>
    rw [hp] at hbad
    cases hbad
  | joinFire path₀ sid s t hp hsid hslk hfire ht =>
    rw [hp] at hbad
    cases hbad

/-- C8 witness: the rejection of `/other/path` evaluated concretely. -/
theorem C8_witness :
    ([] : Registry) = [] ∧ Phase.done = Phase.done ∧ ([] : List Event) = [] :=
  ⟨(C8_reject_no_state_change 5 [] "/other/path".data [] Phase.done []
      (HStep.reject [] "/other/path".data (by decide)) (by decide)).1,
    (C8_reject_no_state_change 5 [] "/other/path".data [] Phase.done []
      (HStep.reject [] "/other/path".data (by decide)) (by decide)).2.1,
    (C8_reject_no_state_change 5 [] "/other/path".data [] Phase.done []
      (HStep.reject [] "/other/path".data (by decide)) (by decide)).2.2.1⟩

/-- C9: for an accepted path the session identifier is exactly the suffix
after `/v1/ooo/` (Python's `partition` cuts at the first occurrence, which
is the front), and registry keying is exact string equality: a lookup
matches an entry precisely when the identifiers are equal, so ids
differing in case or trailing characters denote distinct sessions. -/
theorem C9_session_identity :
    (∀ path, oooPref.isPrefixOf path = true →
      pyPartitionTail path oooPref = path.drop oooPref.length) ∧
    (∀ (k : PyStr) (s : Session) (reg : Registry) (sid : PyStr),
      lookup ((k, s) :: reg) sid = if k = sid then some s else lookup reg sid) :=
  ⟨fun _ hp => pyPartitionTail_of_isPrefixOf hp, fun k s reg sid => lookup_cons k s reg sid⟩

/-- C9 witness: extraction on `/v1/ooo/ABC`, and `"abc"` does not find the
session of `"ABC"`. -/
theorem C9_witness :
    pyPartitionTail "/v1/ooo/ABC".data oooPref = "/v1/ooo/ABC".data.drop oooPref.length ∧
    lookup [("ABC".data, Session.mk [0] false)] "abc".data = none := by
  refine ⟨C9_session_identity.1 "/v1/ooo/ABC".data (by decide), ?_⟩
  have h := C9_session_identity.2 "ABC".data ⟨[0], false⟩ [] "abc".data
  rw [if_neg (by decide)] at h
  exact h

/-- C10: in every reachable state, a handler inside its relay loop (in the
start-send, recv or broadcast phase, which all record the session id) finds
its session in the registry with its own connection still in the peer
list — the unguarded `session['peers']` and `session['started']` accesses
of lines 42–45 never hit a missing session. -/
theorem C10_loop_lookup_safe {σ : GState} (h : Reachable σ) :
    ∀ hd ∈ σ.handlers, ∀ sid, hd.phase.sidOf = some sid →
      ∃ s, lookup σ.reg sid = some s ∧ hd.conn ∈ s.peers := by
  have hinv := reachable_inv h
  intro hd hm sid hsid
  exact ((handlerLoopSafeB_iff σ.reg hd).mp (hinv.2.2.2.2 hd hm)) sid hsid

/-- C10 witness: handler 0, blocked in `recv` in the concrete run, is
still registered in session `a`. -/
theorem C10_witness :
    ∃ s, lookup gs4.reg sidA = some s ∧ (0 : Conn) ∈ s.peers :=
  C10_loop_lookup_safe reach4 ⟨0, .awaitRecv sidA⟩ (by decide) sidA rfl

end Vacon
